import Mathlib

/-!
Verification of the stm32-context-switch-example kernel against its
natural-language specification.  The Rust sources under `src/` are embedded
shallowly: machine integers become `Nat` (with explicit wrapping only where
the source can overflow), fallible operations return `Option`/`Except`,
mutable state is passed explicitly, and raw pointers into the ring of tasks
become list suffixes.
-/

namespace CtxSw

/-! ### Pointwise update of a function-modelled memory or array cell -/

/-- Update one cell of a function-modelled array or memory
(`m[i] = v` in the source). -/
def wupdate (m : Nat → Nat) (i v : Nat) : Nat → Nat :=
  fun j => if j = i then v else m j

/-! ### `src/src/fifo.rs` — `FIFO<T, SIZE>`

The backing array `data: [T; SIZE]` is modelled as a function `Nat → T`;
the source only ever indexes it below `SIZE`. -/

structure FIFO (T : Type) (SIZE : Nat) where
  data : Nat → T
  read_head : Nat
  write_head : Nat
  count : Nat

/-- `FIFO::new_with` -/
def FIFO.new_with (T : Type) (SIZE : Nat) (default : T) : FIFO T SIZE :=
  { data := fun _ => default, read_head := 0, write_head := 0, count := 0 }

/-- `FIFO::len` -/
def FIFO.len {T : Type} {SIZE : Nat} (f : FIFO T SIZE) : Nat := f.count

/-- `FIFO::free_space` -/
def FIFO.free_space {T : Type} {SIZE : Nat} (f : FIFO T SIZE) : Nat :=
  SIZE - f.len

/-- `FIFO::is_empty` -/
def FIFO.is_empty {T : Type} {SIZE : Nat} (f : FIFO T SIZE) : Bool :=
  f.count == 0

/-- `FIFO::is_full` -/
def FIFO.is_full {T : Type} {SIZE : Nat} (f : FIFO T SIZE) : Bool :=
  f.count == SIZE

/-- `FIFO::push_back`; returns the new state together with the `bool`
result of the source function. -/
def FIFO.push_back {T : Type} {SIZE : Nat} (f : FIFO T SIZE) (data : T) :
    FIFO T SIZE × Bool :=
  if f.is_full then (f, false)
  else
    ({ f with
        data := fun j => if j = f.write_head then data else f.data j,
        write_head := (f.write_head + 1) % SIZE,
        count := f.count + 1 }, true)

/-- Loop body of `FIFO::append`: push elements until the first failure,
counting the appended ones. -/
def FIFO.append_go {T : Type} {SIZE : Nat} (f : FIFO T SIZE) (appended : Nat) :
    List T → FIFO T SIZE × Except Nat Nat
  | [] => (f, Except.ok appended)
  | element :: rest =>
    match f.push_back element with
    | (f', true) => FIFO.append_go f' (appended + 1) rest
    | (f', false) => (f', Except.error appended)

/-- `FIFO::append`: `Ok(n)` when every element was copied, `Err(appended)`
with the number of appended elements otherwise. -/
def FIFO.append {T : Type} {SIZE : Nat} (f : FIFO T SIZE) (data : List T) :
    FIFO T SIZE × Except Nat Nat :=
  FIFO.append_go f 0 data

/-- `FIFO::pop_front` -/
def FIFO.pop_front {T : Type} {SIZE : Nat} (f : FIFO T SIZE) :
    FIFO T SIZE × Option T :=
  if f.is_empty then (f, none)
  else
    ({ f with
        read_head := (f.read_head + 1) % SIZE,
        count := f.count - 1 }, some (f.data f.read_head))

/-- Abstraction of a FIFO state to the list of live elements, front first. -/
def FIFO.toList {T : Type} {SIZE : Nat} (f : FIFO T SIZE) : List T :=
  (List.range f.count).map (fun i => f.data ((f.read_head + i) % SIZE))

/-- Structural invariant maintained by every FIFO produced by the source
operations: the heads are in range and the write head sits `count` slots
after the read head. -/
def FIFO.WF {T : Type} {SIZE : Nat} (f : FIFO T SIZE) : Prop :=
  f.read_head < SIZE ∧ f.write_head = (f.read_head + f.count) % SIZE ∧
    f.count ≤ SIZE

instance {T : Type} {SIZE : Nat} (f : FIFO T SIZE) : Decidable f.WF := by
  unfold FIFO.WF
  infer_instance

/-! ### `src/src/ring_buffer.rs` — `RingBuffer<SIZE>`

The `SIZE` parameter is phantom in the source as well: the only storage is
`data: Option<u8>`. -/

structure RingBuffer (SIZE : Nat) where
  data : Option Nat

/-- `RingBuffer::new` -/
def RingBuffer.new (SIZE : Nat) : RingBuffer SIZE := { data := none }

/-- `RingBuffer::available` -/
def RingBuffer.available {SIZE : Nat} (rb : RingBuffer SIZE) : Nat :=
  if rb.data.isSome then 1 else 0

/-- `RingBuffer::is_full` -/
def RingBuffer.is_full {SIZE : Nat} (rb : RingBuffer SIZE) : Bool :=
  rb.available == 1

/-- `RingBuffer::push_back` -/
def RingBuffer.push_back {SIZE : Nat} (rb : RingBuffer SIZE) (data : Nat) :
    RingBuffer SIZE × Bool :=
  if rb.is_full then (rb, false)
  else ({ data := some data }, true)

/-- `RingBuffer::pop_front` (`self.data.take()`) -/
def RingBuffer.pop_front {SIZE : Nat} (rb : RingBuffer SIZE) :
    RingBuffer SIZE × Option Nat :=
  if rb.available = 0 then (rb, none)
  else ({ data := none }, rb.data)

/-! ### `src/src/task.rs` — `Task::initialize_stack`

Addresses are byte addresses as `Nat`; `a` is the address of the first word
of the stack slice, `S` its length in words, so the one-past-the-end pointer
`stack.as_mut_ptr_range().end` is `a + 4 * S`.  Each `push!` decrements the
top by one word and stores; the written words are collected in a list whose
head sits at the final top of stack and whose later entries sit at
increasing addresses.  The function is named `initialize_stack` in the
source. -/

/-- One `push!` step: decrement the top pointer by a word and record the
stored value in front of the words above it. -/
def push_word (st : Nat × List Nat) (value : Nat) : Nat × List Nat :=
  (st.1 - 4, value :: st.2)

/-- Embedding of `Task::initialize_stack`.  `h` is the address of
`start_task_handler`.  Returns `none` on a misaligned stack, otherwise the
synthesized top of stack paired with the pushed words (lowest address
first). -/
def init_stack (h a S : Nat) : Option (Nat × List Nat) :=
  let top0 := a + 4 * S
  if top0 % 4 ≠ 0 then none
  else
    let alignment_required := top0 % 8 ≠ 0
    let top1 := if alignment_required then top0 else top0 - 4
    let alignment_bit := if alignment_required then 0 else 2 ^ 9
    let xpsr := 2 ^ 24 ||| alignment_bit
    some (List.foldl push_word (top1, [])
      [xpsr, h ||| 1, 0xfffffffd,
       12, 3, 2, 1, 0,
       0xFFFFFFFD, 11, 10, 9, 8, 7, 6, 5, 4])

/-! ### `src/src/syscalls/mod.rs` — `ReturnCode` -/

inductive ReturnCode where
  | Ok
  | NotImplemented
  | IncrementPastTen
  | InsufficientSpace

/-- `ReturnCode as u32` (`#[repr(u32)]`, discriminants 0..3). -/
def ReturnCode.toU32 : ReturnCode → Nat
  | .Ok => 0
  | .NotImplemented => 1
  | .IncrementPastTen => 2
  | .InsufficientSpace => 3

/-- Modelled from the spec: `kernel_mode.rs` writes `ReturnCode::Busy`,
a variant missing from the `ReturnCode` enum in `src/src/syscalls/mod.rs`
(which names its value-3 variant `InsufficientSpace`).  The spec fixes the
return codes as 0 Ok, 1 NotImplemented, 2 IncrementPastTen, 3 Busy. -/
def ReturnCodeBusy : Nat := 3

/-! ### `src/src/syscalls/kernel_mode.rs` — `handle_syscall_increment`

The two-word argument slice on the caller's stack is modelled as word
memory `argmem` with the slice starting at word index `argp`. -/

/-- Embedding of `handle_syscall_increment`. -/
def handle_syscall_increment (argmem : Nat → Nat) (argp : Nat) : Nat → Nat :=
  let value := argmem argp
  if value < 10 then
    wupdate (wupdate argmem argp ReturnCode.Ok.toU32) (argp + 1) (value + 1)
  else
    wupdate argmem argp ReturnCode.IncrementPastTen.toU32

/-! ### `src/src/scheduler.rs` and `src/src/dispatcher.rs`

Tasks are identified by `Nat` ids; a `*mut Task` is `Option Nat` with
`none` standing for the idle task (`IDLE_TASK`), which is not a member of
`TASK_LIST`.  The null-terminated chain hanging off a task pointer is a
list of ids, so `TASK_LIST` is `task_list` and the chain reachable from
`(*CURRENT_TASK).next()` is `after_current`.  Per-task `is_blocked` flags
live in `blocked` (`idle_blocked` for the idle task).  The saved stack
contents of tasks are not tracked here; `init_stack` models them
separately. -/

/-- `scheduler::KernelTask`.  `args` is the word index of the syscall's
two-word argument slice, `data` the byte address of the write source. -/
inductive KernelTask where
  | LowerThreadPrivileges
  | WriteTx (args : Nat) (total : Nat) (left : Nat) (data : Nat)
      (task : Option Nat)
  | Spawn (f : Nat) (stack : Nat) (stack_size : Nat)
  | Unblock (task : Option Nat)
deriving DecidableEq

/-- `KERNEL_TASK_COUNT` (`heapless::spsc::Queue<KernelTask, 16>`; such a
queue holds at most `KERNEL_TASK_COUNT - 1` elements). -/
def KERNEL_TASK_COUNT : Nat := 16

/-- Combined kernel state: the statics of `scheduler.rs` and `bios.rs`
plus the memory regions the syscall handlers touch.  `pendsv` models the
pended context-switch exception bit, `npriv_lowered` the thread privilege
bit cleared by `LowerThreadPrivileges`, `next_id` a fresh-id counter for
the heap allocation done by `insert_task`. -/
structure KState where
  kernel_queue : List KernelTask
  tx_buffer : FIFO Nat 1280
  argmem : Nat → Nat
  mem8 : Nat → Nat
  blocked : Nat → Bool
  idle_blocked : Bool
  task_list : List Nat
  after_current : List Nat
  current : Option Nat
  npriv_lowered : Bool
  pendsv : Bool
  next_id : Nat

/-- `Task::set_blocked` applied through a task pointer. -/
def KState.set_blocked (s : KState) (t : Option Nat) (b : Bool) : KState :=
  match t with
  | none => { s with idle_blocked := b }
  | some i => { s with blocked := fun j => if j = i then b else s.blocked j }

/-- `scheduler::enqueue_kernel_task` (the queue rejects a new element when
it already holds `KERNEL_TASK_COUNT - 1`). -/
def enqueue_kernel_task (q : List KernelTask) (task : KernelTask) :
    Except KernelTask (List KernelTask) :=
  if q.length < KERNEL_TASK_COUNT - 1 then Except.ok (q ++ [task])
  else Except.error task

/-- `scheduler::execute_task`.  The `WriteTx` arm reads `left` bytes at
`data` from byte memory and hands them to the console FIFO; the console
`append` of the missing `BufferedOutput::append` is, per the spec, the
`FIFO::append` of the TX buffer.  The `Spawn` arm models
`Box::into_raw(Box::new(Task::new(..)))` plus `insert_task` by a fresh id
pushed at the head of the list (stack contents are not tracked). -/
def execute_task (s : KState) : KernelTask → KState × Option KernelTask
  | .LowerThreadPrivileges => ({ s with npriv_lowered := true }, none)
  | .WriteTx args total left data task =>
    let s1 := s.set_blocked task true
    let buffer := (List.range left).map (fun i => s.mem8 (data + i))
    match s.tx_buffer.append buffer with
    | (tx, Except.ok _) =>
      ({ s1 with
          tx_buffer := tx,
          argmem := wupdate (wupdate s.argmem args ReturnCode.Ok.toU32)
            (args + 1) total },
       some (.Unblock task))
    | (tx, Except.error appended) =>
      ({ s1 with tx_buffer := tx },
       some (.WriteTx args total (left - appended) (data + appended) task))
  | .Spawn _ _ _ =>
    ({ s with
        task_list := s.next_id :: s.task_list,
        blocked := fun j => if j = s.next_id then false else s.blocked j,
        next_id := s.next_id + 1 }, none)
  | .Unblock task => (s.set_blocked task false, none)

/-- `scheduler::find_runnable`: walk a null-terminated chain of tasks and
return the first non-blocked one, as the suffix it heads. -/
def find_runnable (blocked : Nat → Bool) : List Nat → Option (Nat × List Nat)
  | [] => none
  | head :: rest =>
    if !(blocked head) then some (head, rest)
    else find_runnable blocked rest

/-- `scheduler::schedule_next`: first runnable task after the current one,
else first runnable from the list head, else the idle task (`current :=
none`; the idle task's `next` is null). -/
def schedule_next (s : KState) : KState :=
  match find_runnable s.blocked s.after_current with
  | some (t, rest) => { s with current := some t, after_current := rest }
  | none =>
    match find_runnable s.blocked s.task_list with
    | some (t, rest) => { s with current := some t, after_current := rest }
    | none => { s with current := none, after_current := [] }

/-- Loop of `scheduler::complete_tasks`: drain the pending queue once,
collecting continuations in a fresh queue. -/
def run_queue (s : KState) :
    List KernelTask → List KernelTask → KState × List KernelTask
  | [], continuations => (s, continuations)
  | task :: rest, continuations =>
    match execute_task s task with
    | (s', some new_task) => run_queue s' rest (continuations ++ [new_task])
    | (s', none) => run_queue s' rest continuations

/-- `scheduler::complete_tasks`: the old queue is drained and replaced by
the queue of continuations. -/
def complete_tasks (s : KState) : KState :=
  let r := run_queue { s with kernel_queue := [] } s.kernel_queue []
  { r.1 with kernel_queue := r.2 }

/-- `dispatcher::kernel_task`, the kernel callout performed between the
save and restore halves of the PendSV handler.  The source body is exactly
`scheduler::schedule_next();`. -/
def kernel_task (s : KState) : KState :=
  schedule_next s

/-- `kernel_mode::handle_syscall_write`: build a `WriteTx` from the
caller's argument slice (`args[0]` = length, `args[1]` = data pointer) and
try to enqueue it; on success block the caller and pend a context switch,
on a full queue write `Busy` into `args[0]` and return. -/
def handle_syscall_write (s : KState) (argp : Nat) : KState :=
  let len := s.argmem argp
  let ptr := s.argmem (argp + 1)
  let task := s.current
  let kt := KernelTask.WriteTx argp len len ptr task
  match enqueue_kernel_task s.kernel_queue kt with
  | Except.ok q =>
    { s.set_blocked task true with kernel_queue := q, pendsv := true }
  | Except.error _ =>
    { s with argmem := wupdate s.argmem argp ReturnCodeBusy }

/-! ### `src/src/bios.rs` — `BufferedOutput::write_str`

The UART hardware is reduced to the list of bytes handed to its data
register (`uart_tx`); the busy-waits on `is_tx_empty` have no effect on
this state.  The TX buffer is `FIFO<u8, 1280>`; the statements below keep
the size generic and instantiate it at 1280 where the claim's concrete
input needs it. -/

structure BiosState (SIZE : Nat) where
  tx_buffer : FIFO Nat SIZE
  uart_tx : List Nat
  tx_irq_enabled : Bool

/-- `bios::send_next`: pop one pending byte, if any, into the UART data
register. -/
def send_next {SIZE : Nat} (s : BiosState SIZE) : BiosState SIZE :=
  let pr := s.tx_buffer.pop_front
  match pr.2 with
  | some byte =>
    { s with tx_buffer := pr.1, uart_tx := s.uart_tx ++ [byte] }
  | none => { s with tx_buffer := pr.1 }

/-- Byte loop of `BufferedOutput::write_str`: push each byte of the string
until a push fails, then stop (`break`). -/
def write_str_go {SIZE : Nat} (fifo : FIFO Nat SIZE) :
    List Nat → FIFO Nat SIZE
  | [] => fifo
  | character :: rest =>
    match fifo.push_back character with
    | (f, true) => write_str_go f rest
    | (f, false) => f

/-- `BufferedOutput::write_str`: disable the TX interrupt, enqueue bytes
until the FIFO rejects one, kick the drain (`send_next`), re-enable the
interrupt and return `Ok(())`. -/
def buffered_write_str {SIZE : Nat} (s : BiosState SIZE)
    (string : List Nat) : BiosState SIZE × Except Unit Unit :=
  let s1 := { s with tx_irq_enabled := false }
  let s2 := send_next { s1 with tx_buffer := write_str_go s1.tx_buffer string }
  ({ s2 with tx_irq_enabled := true }, Except.ok ())

/-! ### Driver for FIFO operation sequences (claim C6) -/

inductive FifoOp (T : Type) where
  | push (x : T)
  | pop

/-- Run a sequence of `push_back`/`pop_front` calls, returning the final
FIFO, the values accepted by successful pushes and the values returned by
successful pops, in call order. -/
def runOps {T : Type} {SIZE : Nat} (f : FIFO T SIZE) :
    List (FifoOp T) → FIFO T SIZE × List T × List T
  | [] => (f, [], [])
  | FifoOp.push x :: rest =>
    let pr := f.push_back x
    let r := runOps pr.1 rest
    (r.1, if pr.2 then x :: r.2.1 else r.2.1, r.2.2)
  | FifoOp.pop :: rest =>
    let pr := f.pop_front
    let r := runOps pr.1 rest
    (r.1, r.2.1,
      match pr.2 with
      | some v => v :: r.2.2
      | none => r.2.2)

/-! ### Concrete states used by counterexamples and witnesses -/

/-- A kernel state with empty structures everywhere. -/
def baseState : KState where
  kernel_queue := []
  tx_buffer := FIFO.new_with Nat 1280 0
  argmem := fun _ => 0
  mem8 := fun i => 65 + i
  blocked := fun _ => false
  idle_blocked := false
  task_list := []
  after_current := []
  current := none
  npriv_lowered := false
  pendsv := false
  next_id := 10

/-- A completely full TX FIFO. -/
def fullFifo : FIFO Nat 1280 where
  data := fun _ => 0
  read_head := 0
  write_head := 0
  count := 1280

/-- Kernel state whose work queue holds one pending action. -/
def queuedState : KState :=
  { baseState with kernel_queue := [KernelTask.LowerThreadPrivileges] }

/-- Bios state whose TX FIFO is full. -/
def fullBios : BiosState 1280 where
  tx_buffer := fullFifo
  uart_tx := []
  tx_irq_enabled := true

/-! ### FIFO lemmas -/

theorem FIFO.toList_length {T : Type} {SIZE : Nat} (f : FIFO T SIZE) :
    f.toList.length = f.count := by
  simp [FIFO.toList]

theorem FIFO.push_back_full {T : Type} {SIZE : Nat} (f : FIFO T SIZE)
    (h : f.count = SIZE) (x : T) : f.push_back x = (f, false) := by
  have : f.is_full = true := by simp [FIFO.is_full, h]
  simp [FIFO.push_back, this]

theorem FIFO.push_back_not_full {T : Type} {SIZE : Nat} (f : FIFO T SIZE)
    (hlt : f.count < SIZE) (x : T) :
    f.push_back x =
      ({ f with
          data := fun j => if j = f.write_head then x else f.data j,
          write_head := (f.write_head + 1) % SIZE,
          count := f.count + 1 }, true) := by
  have : f.is_full = false := by
    simp only [FIFO.is_full, beq_eq_false_iff_ne, ne_eq]
    omega
  simp [FIFO.push_back, this]

theorem FIFO.push_back_spec {T : Type} {SIZE : Nat} {f : FIFO T SIZE}
    (hwf : f.WF) (hlt : f.count < SIZE) (x : T) :
    (f.push_back x).2 = true ∧ (f.push_back x).1.WF ∧
      (f.push_back x).1.toList = f.toList ++ [x] ∧
      (f.push_back x).1.count = f.count + 1 := by
  obtain ⟨hrh, hwh, hcnt⟩ := hwf
  rw [FIFO.push_back_not_full f hlt x]
  refine ⟨rfl, ⟨hrh, ?_, show f.count + 1 ≤ SIZE by omega⟩, ?_, rfl⟩
  · show (f.write_head + 1) % SIZE = (f.read_head + (f.count + 1)) % SIZE
    rw [hwh]
    rw [Nat.mod_add_mod]
    ring_nf
  · show ((List.range (f.count + 1)).map fun i =>
        (if ((f.read_head + i) % SIZE) = f.write_head then x
          else f.data ((f.read_head + i) % SIZE))) = f.toList ++ [x]
    rw [List.range_succ, List.map_append]
    congr 1
    · unfold FIFO.toList
      apply List.map_congr_left
      intro i hi
      have hi' : i < f.count := List.mem_range.mp hi
      have hne : (f.read_head + i) % SIZE ≠ f.write_head := by
        rw [hwh]
        intro heq
        have h1 : i ≡ f.count [MOD SIZE] :=
          Nat.ModEq.add_left_cancel' f.read_head heq
        have h2 : i % SIZE = i := Nat.mod_eq_of_lt (by omega)
        have h3 : f.count % SIZE = f.count := Nat.mod_eq_of_lt hlt
        unfold Nat.ModEq at h1
        omega
      simp [hne]
    · simp [hwh]

theorem FIFO.pop_front_empty {T : Type} {SIZE : Nat} (f : FIFO T SIZE)
    (h : f.count = 0) : f.pop_front = (f, none) ∧ f.toList = [] := by
  have : f.is_empty = true := by simp [FIFO.is_empty, h]
  exact ⟨by simp [FIFO.pop_front, this], by simp [FIFO.toList, h]⟩

theorem FIFO.pop_front_spec {T : Type} {SIZE : Nat} {f : FIFO T SIZE}
    (hwf : f.WF) (h0 : 0 < f.count) :
    f.pop_front =
      ({ f with
          read_head := (f.read_head + 1) % SIZE,
          count := f.count - 1 }, some (f.data f.read_head)) ∧
    ({ f with
        read_head := (f.read_head + 1) % SIZE,
        count := f.count - 1 } : FIFO T SIZE).WF ∧
    f.toList = f.data f.read_head ::
      ({ f with
          read_head := (f.read_head + 1) % SIZE,
          count := f.count - 1 } : FIFO T SIZE).toList := by
  obtain ⟨hrh, hwh, hcnt⟩ := hwf
  have hS : 0 < SIZE := by omega
  have hemp : f.is_empty = false := by
    simp only [FIFO.is_empty, beq_eq_false_iff_ne, ne_eq]
    omega
  refine ⟨by simp [FIFO.pop_front, hemp],
    ⟨Nat.mod_lt _ hS, ?_, show f.count - 1 ≤ SIZE by omega⟩, ?_⟩
  · show f.write_head = ((f.read_head + 1) % SIZE + (f.count - 1)) % SIZE
    rw [Nat.mod_add_mod, hwh]
    congr 1
    omega
  · show f.toList = f.data f.read_head ::
        ((List.range (f.count - 1)).map fun i =>
          f.data (((f.read_head + 1) % SIZE + i) % SIZE))
    obtain ⟨c, hc⟩ : ∃ c, f.count = c + 1 := ⟨f.count - 1, by omega⟩
    unfold FIFO.toList
    rw [hc]
    rw [List.range_succ_eq_map, List.map_cons, List.map_map]
    simp only [hc, Nat.add_sub_cancel]
    congr 1
    · rw [Nat.add_zero, Nat.mod_eq_of_lt hrh]
    · apply List.map_congr_left
      intro i _
      simp only [Function.comp_apply, Nat.mod_add_mod]
      congr 2
      omega

/-- Invariant of `runOps`: the FIFO stays well-formed, and the popped
values followed by the values still buffered are exactly the values
accepted by pushes, in submission order. -/
theorem runOps_spec {T : Type} {SIZE : Nat} (ops : List (FifoOp T)) :
    ∀ f : FIFO T SIZE, f.WF →
      (runOps f ops).1.WF ∧
      (runOps f ops).2.2 ++ (runOps f ops).1.toList =
        f.toList ++ (runOps f ops).2.1 := by
  induction ops with
  | nil =>
    intro f hwf
    simpa [runOps] using hwf
  | cons op rest ih =>
    intro f hwf
    match op with
    | FifoOp.push x =>
      by_cases hfull : f.count = SIZE
      · have hpb := FIFO.push_back_full f hfull x
        obtain ⟨h1, h2⟩ := ih f hwf
        simp only [runOps, hpb]
        exact ⟨h1, by simpa using h2⟩
      · have hlt : f.count < SIZE := lt_of_le_of_ne hwf.2.2 hfull
        obtain ⟨hb, hwf', htl, hcnt⟩ := FIFO.push_back_spec hwf hlt x
        obtain ⟨h1, h2⟩ := ih (f.push_back x).1 hwf'
        simp only [runOps, hb]
        refine ⟨h1, ?_⟩
        simp only [if_true]
        rw [h2, htl]
        simp [List.append_assoc]
    | FifoOp.pop =>
      by_cases h0 : f.count = 0
      · obtain ⟨hpop, htl⟩ := FIFO.pop_front_empty f h0
        obtain ⟨h1, h2⟩ := ih f hwf
        simp only [runOps, hpop]
        exact ⟨h1, by simpa using h2⟩
      · obtain ⟨hpop, hwf', htl⟩ := FIFO.pop_front_spec hwf (by omega)
        obtain ⟨h1, h2⟩ := ih _ hwf'
        simp only [runOps, hpop]
        refine ⟨h1, ?_⟩
        rw [List.cons_append, h2, htl]
        simp

/-- The byte loop of `BufferedOutput::write_str` appends exactly the
longest fitting front part of the string to the FIFO. -/
theorem write_str_go_spec {SIZE : Nat} (string : List Nat) :
    ∀ f : FIFO Nat SIZE, f.WF →
      (write_str_go f string).WF ∧
      (write_str_go f string).toList =
        f.toList ++ string.take (SIZE - f.count) := by
  induction string with
  | nil =>
    intro f hwf
    simp [write_str_go, hwf]
  | cons c rest ih =>
    intro f hwf
    by_cases hfull : f.count = SIZE
    · have hpb := FIFO.push_back_full f hfull c
      simp [write_str_go, hpb, hfull, hwf]
    · have hlt : f.count < SIZE := lt_of_le_of_ne hwf.2.2 hfull
      obtain ⟨hb, hwf', htl, hcnt⟩ := FIFO.push_back_spec hwf hlt c
      rcases hpb : f.push_back c with ⟨g, okb⟩
      rw [hpb] at hb hwf' htl hcnt
      simp only at hb hwf' htl hcnt
      subst hb
      obtain ⟨ihwf, ihtl⟩ := ih g hwf'
      rw [write_str_go, hpb]
      refine ⟨ihwf, ?_⟩
      rw [ihtl, htl, hcnt]
      obtain ⟨k, hk⟩ : ∃ k, SIZE - f.count = k + 1 :=
        ⟨SIZE - f.count - 1, by omega⟩
      have hk' : SIZE - (f.count + 1) = k := by omega
      rw [hk, hk', List.take_succ_cons]
      simp [List.append_assoc]

/-- `send_next` preserves the FIFO invariant and conserves the byte
stream: transmitted bytes followed by buffered bytes are unchanged. -/
theorem send_next_spec {SIZE : Nat} (s : BiosState SIZE)
    (hwf : s.tx_buffer.WF) :
    (send_next s).tx_buffer.WF ∧
    (send_next s).uart_tx ++ (send_next s).tx_buffer.toList =
      s.uart_tx ++ s.tx_buffer.toList ∧
    (send_next s).tx_irq_enabled = s.tx_irq_enabled := by
  by_cases h0 : s.tx_buffer.count = 0
  · obtain ⟨hpop, htl⟩ := FIFO.pop_front_empty s.tx_buffer h0
    simp [send_next, hpop, htl, hwf]
  · obtain ⟨hpop, hwf', htl⟩ := FIFO.pop_front_spec hwf (by omega)
    simp [send_next, hpop, htl, hwf']

/-! ### Scheduler lemmas -/

theorem find_runnable_eq_none_iff (blocked : Nat → Bool) (l : List Nat) :
    find_runnable blocked l = none ↔ ∀ t ∈ l, blocked t = true := by
  induction l with
  | nil => simp [find_runnable]
  | cons head rest ih =>
    cases h : blocked head <;>
      simp [find_runnable, h, ih]

theorem find_runnable_map_fst (blocked : Nat → Bool) (l : List Nat) :
    (find_runnable blocked l).map Prod.fst =
      List.find? (fun x => !(blocked x)) l := by
  induction l with
  | nil => simp [find_runnable]
  | cons head rest ih =>
    cases h : blocked head <;>
      simp [find_runnable, List.find?_cons, h, ih]

/-! ### `init_stack` helper lemmas -/

/-- When the one-past-the-end address of the slice is already 8-byte
aligned, `initialize_stack` skips one pad word before synthesizing the
frames, sets the alignment bit, and returns a top of stack 18 words below
the end of the slice. -/
theorem init_stack_aligned (h a S : Nat) (ha : a % 4 = 0) (hS : 18 ≤ S)
    (h8 : (a + 4 * S) % 8 = 0) :
    init_stack h a S =
      some (a + 4 * S - 72,
        [4, 5, 6, 7, 8, 9, 10, 11, 4294967293, 0, 1, 2, 3, 12, 4294967293,
         h ||| 1, 2 ^ 24 ||| 2 ^ 9]) := by
  have hne : ¬ ((a + 4 * S) % 4 ≠ 0) := by omega
  have hne8 : ¬ ((a + 4 * S) % 8 ≠ 0) := by
    intro hc
    exact hc h8
  simp only [init_stack]
  rw [if_neg hne, if_neg hne8, if_neg hne8]
  simp only [push_word, List.foldl, Option.some.injEq, Prod.mk.injEq]
  exact ⟨by omega, trivial⟩

/-- When the one-past-the-end address of the slice is 4-byte but not
8-byte aligned, no pad word is skipped, the alignment bit is clear, and
the returned top of stack is 17 words below the end of the slice. -/
theorem init_stack_unaligned (h a S : Nat) (ha : a % 4 = 0) (hS : 18 ≤ S)
    (h8 : (a + 4 * S) % 8 ≠ 0) :
    init_stack h a S =
      some (a + 4 * S - 68,
        [4, 5, 6, 7, 8, 9, 10, 11, 4294967293, 0, 1, 2, 3, 12, 4294967293,
         h ||| 1, 2 ^ 24]) := by
  have hne : ¬ ((a + 4 * S) % 4 ≠ 0) := by omega
  simp only [init_stack]
  rw [if_neg hne, if_pos h8, if_pos h8]
  simp only [push_word, List.foldl, Option.some.injEq, Prod.mk.injEq,
    Nat.or_zero]
  exact ⟨by omega, trivial⟩

/-! ### Claim theorems -/

/-- Claim C1, counterexample: for the 4-byte-aligned stack slice at byte
address 536870912 of 18 words, whose one-past-the-end address is already
8-byte aligned, `initialize_stack` returns top of stack `stack_base + S -
18` words (here: the base itself), not `stack_base + S - 17` words as the
claim states. -/
theorem c1_counterexample :
    (init_stack 4097 536870912 18).map Prod.fst = some 536870912 ∧
    ¬ ((init_stack 4097 536870912 18).map Prod.fst =
        some (536870912 + 4 * (18 - 17))) := by
  constructor
  · decide
  · decide

/-- Claim C1 (amended): for every task stack slice at 4-byte-aligned byte
address `a` with `S ≥ 18` words, `initialize_stack` returns `stack_base +
S - 18` words with xPSR bit 9 set when the top of the slice was already
8-byte aligned (a pad word was skipped), and `stack_base + S - 17` words
with bit 9 clear otherwise; in both cases the xPSR Thumb bit (bit 24) is
set and the return-address word `h ||| 1` has its low bit set. -/
theorem c1_stack_synthesis (h a S : Nat) (ha : a % 4 = 0) (hS : 18 ≤ S) :
    (((a + 4 * S) % 8 = 0 →
        init_stack h a S =
          some (a + 4 * (S - 18),
            [4, 5, 6, 7, 8, 9, 10, 11, 4294967293, 0, 1, 2, 3, 12,
             4294967293, h ||| 1, 2 ^ 24 ||| 2 ^ 9])) ∧
      ((a + 4 * S) % 8 ≠ 0 →
        init_stack h a S =
          some (a + 4 * (S - 17),
            [4, 5, 6, 7, 8, 9, 10, 11, 4294967293, 0, 1, 2, 3, 12,
             4294967293, h ||| 1, 2 ^ 24]))) ∧
    Nat.testBit (h ||| 1) 0 = true ∧
    Nat.testBit (2 ^ 24 ||| 2 ^ 9) 24 = true ∧
    Nat.testBit (2 ^ 24 ||| 2 ^ 9) 9 = true ∧
    Nat.testBit (2 ^ 24 : Nat) 24 = true ∧
    Nat.testBit (2 ^ 24 : Nat) 9 = false := by
  refine ⟨⟨?_, ?_⟩, ?_, by decide, by decide, by decide, by decide⟩
  · intro h8
    rw [init_stack_aligned h a S ha hS h8]
    have : a + 4 * S - 72 = a + 4 * (S - 18) := by omega
    rw [this]
  · intro h8
    rw [init_stack_unaligned h a S ha hS h8]
    have : a + 4 * S - 68 = a + 4 * (S - 17) := by omega
    rw [this]
  · simp [Nat.testBit_or]

/-- Claim C1 witness: concrete instance of the amended claim at handler
address 4097, stack base 536870912, 19 words (top not 8-byte aligned). -/
theorem c1_witness :
    init_stack 4097 536870912 19 =
      some (536870912 + 4 * (19 - 17),
        [4, 5, 6, 7, 8, 9, 10, 11, 4294967293, 0, 1, 2, 3, 12, 4294967293,
         4097 ||| 1, 2 ^ 24]) :=
  (c1_stack_synthesis 4097 536870912 19 (by decide) (by decide)).1.2
    (by decide)

/-- Claim C9, counterexample: the link-register word synthesized inside
the exception frame (the word directly below the return-address word, at
index 14 from the top of stack) is 0xFFFFFFFD = 4294967293, the very value
the same function pushes into the callee-save frame (index 8) as the
valid thread-mode/PSP exception return, contradicting the claim that the
two differ. -/
theorem c9_counterexample :
    (init_stack 4097 536870912 18).map (fun p => p.2.get? 14) =
      some (some 4294967293) ∧
    (init_stack 4097 536870912 18).map (fun p => p.2.get? 8) =
      some (some 4294967293) := by
  constructor
  · decide
  · decide

/-- Claim C9 (amended): for every task stack synthesized by
`initialize_stack`, the link-register word inside the exception frame is
0xFFFFFFFD — the same value the function pushes into the callee-save
frame as the valid thread-mode/PSP exception return, not a value distinct
from it.  (Branching to it from thread mode still faults, per the intent
of the source comment, but the pushed value is not a distinct invalid
one.) -/
theorem c9_frame_lr (h a S : Nat) (ha : a % 4 = 0) (hS : 18 ≤ S) :
    ∃ sp ws, init_stack h a S = some (sp, ws) ∧
      ws.get? 14 = some 4294967293 ∧ ws.get? 8 = some 4294967293 := by
  by_cases h8 : (a + 4 * S) % 8 = 0
  · exact ⟨a + 4 * S - 72,
      [4, 5, 6, 7, 8, 9, 10, 11, 4294967293, 0, 1, 2, 3, 12, 4294967293,
       h ||| 1, 2 ^ 24 ||| 2 ^ 9],
      init_stack_aligned h a S ha hS h8, rfl, rfl⟩
  · exact ⟨a + 4 * S - 68,
      [4, 5, 6, 7, 8, 9, 10, 11, 4294967293, 0, 1, 2, 3, 12, 4294967293,
       h ||| 1, 2 ^ 24],
      init_stack_unaligned h a S ha hS h8, rfl, rfl⟩

/-- Claim C9 witness: concrete instance of the amended claim. -/
theorem c9_witness :
    ∃ sp ws, init_stack 4097 536870912 19 = some (sp, ws) ∧
      ws.get? 14 = some 4294967293 ∧ ws.get? 8 = some 4294967293 :=
  c9_frame_lr 4097 536870912 19 (by decide) (by decide)

/-- Claim C7: the Increment handler writes `Ok` into the caller's saved
`r0` slot and `v + 1` into the saved `r1` slot when the argument `v` is
below ten, and writes `IncrementPastTen` (code 2) into the `r0` slot,
leaving the `r1` slot untouched, when `v ≥ 10`. -/
theorem c7_increment (argmem : Nat → Nat) (argp : Nat) :
    (argmem argp < 10 →
      handle_syscall_increment argmem argp =
        wupdate (wupdate argmem argp ReturnCode.Ok.toU32) (argp + 1)
          (argmem argp + 1)) ∧
    (10 ≤ argmem argp →
      handle_syscall_increment argmem argp =
        wupdate argmem argp ReturnCode.IncrementPastTen.toU32) ∧
    ReturnCode.Ok.toU32 = 0 ∧ ReturnCode.IncrementPastTen.toU32 = 2 := by
  refine ⟨?_, ?_, rfl, rfl⟩
  · intro hlt
    simp [handle_syscall_increment, hlt]
  · intro hge
    have hnlt : ¬ (argmem argp < 10) := by omega
    simp [handle_syscall_increment, hnlt]

/-- Claim C7 witness: Increment of 5 yields `Ok`/6, Increment of 10
yields `IncrementPastTen`. -/
theorem c7_increment_witness :
    handle_syscall_increment (fun _ => 5) 0 =
      wupdate (wupdate (fun _ => 5) 0 ReturnCode.Ok.toU32) 1 6 ∧
    handle_syscall_increment (fun _ => 10) 0 =
      wupdate (fun _ => 10) 0 ReturnCode.IncrementPastTen.toU32 :=
  ⟨(c7_increment (fun _ => 5) 0).1 (by decide),
   (c7_increment (fun _ => 10) 0).2.1 (by decide)⟩

/-- Claim C10: regardless of the `SIZE` parameter, `RingBuffer` stores at
most one byte: `available` is 0 or 1, a push succeeds exactly when no
byte is stored, after a successful push every further push fails until
`pop_front` removes the stored byte, so the effective capacity is one. -/
theorem c10_ring_buffer (SIZE : Nat) (rb : RingBuffer SIZE) (b b2 : Nat) :
    rb.available ≤ 1 ∧
    ((rb.push_back b).2 = true ↔ rb.data = none) ∧
    RingBuffer.push_back (⟨none⟩ : RingBuffer SIZE) b = (⟨some b⟩, true) ∧
    RingBuffer.push_back (⟨some b⟩ : RingBuffer SIZE) b2 =
      (⟨some b⟩, false) ∧
    RingBuffer.pop_front (⟨some b⟩ : RingBuffer SIZE) = (⟨none⟩, some b) ∧
    RingBuffer.available (⟨some b⟩ : RingBuffer SIZE) = 1 := by
  refine ⟨?_, ?_, rfl, rfl, rfl, rfl⟩
  · cases h : rb.data <;> simp [RingBuffer.available, h]
  · cases h : rb.data <;>
      simp [RingBuffer.push_back, RingBuffer.is_full, RingBuffer.available,
        h]

/-- Claim C5: after `schedule_next`, the current task is the idle task
(`current = none`) exactly when every task in the task list is blocked;
when some task is unblocked, the selected task is the first non-blocked
task walking forward from the chain after the current task, falling back
to the first non-blocked task from the list head, and is never the idle
task. -/
theorem c5_schedule_next (s : KState)
    (hsuf : s.after_current <:+ s.task_list) :
    ((schedule_next s).current = none ↔
      ∀ t ∈ s.task_list, s.blocked t = true) ∧
    (∀ t, (schedule_next s).current = some t →
      (List.find? (fun x => !(s.blocked x)) s.after_current = some t ∨
        (List.find? (fun x => !(s.blocked x)) s.after_current = none ∧
          List.find? (fun x => !(s.blocked x)) s.task_list = some t))) := by
  rcases h1 : find_runnable s.blocked s.after_current with _ | ⟨t1, r1⟩
  · rcases h2 : find_runnable s.blocked s.task_list with _ | ⟨t2, r2⟩
    · have hall := (find_runnable_eq_none_iff s.blocked s.task_list).mp h2
      simp only [schedule_next, h1, h2]
      exact ⟨iff_of_true trivial hall, by simp⟩
    · have hf2 : List.find? (fun x => !(s.blocked x)) s.task_list = some t2 := by
        have := find_runnable_map_fst s.blocked s.task_list
        rw [h2] at this
        simpa using this.symm
      have hf1 : List.find? (fun x => !(s.blocked x)) s.after_current = none := by
        have := find_runnable_map_fst s.blocked s.after_current
        rw [h1] at this
        simpa using this.symm
      have hnotall : ¬ ∀ t ∈ s.task_list, s.blocked t = true := by
        intro hall
        have hb := List.find?_some hf2
        have hm := List.mem_of_find?_eq_some hf2
        have := hall t2 hm
        simp [this] at hb
      simp only [schedule_next, h1, h2]
      refine ⟨by simp [hnotall], ?_⟩
      intro t ht
      simp only [Option.some.injEq] at ht
      subst ht
      exact Or.inr ⟨hf1, hf2⟩
  · have hf1 : List.find? (fun x => !(s.blocked x)) s.after_current = some t1 := by
      have := find_runnable_map_fst s.blocked s.after_current
      rw [h1] at this
      simpa using this.symm
    have hnotall : ¬ ∀ t ∈ s.task_list, s.blocked t = true := by
      intro hall
      have hb := List.find?_some hf1
      have hm := List.mem_of_find?_eq_some hf1
      have hm' : t1 ∈ s.task_list := hsuf.sublist.subset hm
      have := hall t1 hm'
      simp [this] at hb
    simp only [schedule_next, h1]
    refine ⟨by simp [hnotall], ?_⟩
    intro t ht
    simp only [Option.some.injEq] at ht
    subst ht
    exact Or.inl hf1

/-- Claim C5 witness: with task list `[1, 2]`, the chain after the
current task `[2]`, and task 1 blocked, `schedule_next` selects task 2,
and the idle task is not selected. -/
theorem c5_schedule_next_witness :
    ((schedule_next
        { baseState with
            task_list := [1, 2],
            after_current := [2],
            blocked := fun j => j == 1 }).current = none ↔
      ∀ t ∈ [1, 2],
        (fun j : Nat => j == 1) t = true) ∧
    (∀ t,
      (schedule_next
        { baseState with
            task_list := [1, 2],
            after_current := [2],
            blocked := fun j => j == 1 }).current = some t →
      (List.find? (fun x => !(x == 1)) [2] = some t ∨
        (List.find? (fun x => !(x == 1)) [2] = none ∧
          List.find? (fun x => !(x == 1)) [1, 2] = some t))) :=
  c5_schedule_next
    { baseState with
        task_list := [1, 2],
        after_current := [2],
        blocked := fun j => j == 1 }
    ⟨[1], rfl⟩

/-- Claim C8: the Write syscall handler, on successful enqueue of the
`WriteTx` action, appends it to the kernel work queue, blocks the caller
and pends a context switch; on a full queue it only writes `Busy`
(code 3) into the caller's saved `r0` slot, leaving the blocked flag and
the pended-switch bit untouched. -/
theorem c8_write_syscall (s : KState) (argp : Nat) :
    (s.kernel_queue.length < KERNEL_TASK_COUNT - 1 →
      handle_syscall_write s argp =
        { s.set_blocked s.current true with
            kernel_queue := s.kernel_queue ++
              [KernelTask.WriteTx argp (s.argmem argp) (s.argmem argp)
                (s.argmem (argp + 1)) s.current],
            pendsv := true }) ∧
    (¬ s.kernel_queue.length < KERNEL_TASK_COUNT - 1 →
      handle_syscall_write s argp =
        { s with argmem := wupdate s.argmem argp ReturnCodeBusy }) ∧
    ReturnCodeBusy = 3 := by
  refine ⟨?_, ?_, rfl⟩
  · intro hc
    simp [handle_syscall_write, enqueue_kernel_task, hc]
  · intro hc
    simp [handle_syscall_write, enqueue_kernel_task, hc]

/-- Claim C8 witness: with an empty kernel queue the Write syscall
enqueues, blocks and pends; with a full queue (15 pending actions) it
only writes `Busy` into the saved `r0` slot. -/
theorem c8_write_syscall_witness :
    handle_syscall_write baseState 0 =
      { baseState.set_blocked baseState.current true with
          kernel_queue := baseState.kernel_queue ++
            [KernelTask.WriteTx 0 (baseState.argmem 0) (baseState.argmem 0)
              (baseState.argmem 1) baseState.current],
          pendsv := true } ∧
    handle_syscall_write
        { baseState with
            kernel_queue :=
              List.replicate 15 KernelTask.LowerThreadPrivileges } 0 =
      { { baseState with
            kernel_queue :=
              List.replicate 15 KernelTask.LowerThreadPrivileges } with
          argmem := wupdate baseState.argmem 0 ReturnCodeBusy } :=
  ⟨(c8_write_syscall baseState 0).1 (by decide),
   (c8_write_syscall
      { baseState with
          kernel_queue :=
            List.replicate 15 KernelTask.LowerThreadPrivileges } 0).2.1
    (by decide)⟩

/-- Claim C2: evaluation of the code at the failing input.  With one
pending action in the kernel work queue, the `kernel_task` callout of the
PendSV handler leaves the queue untouched and the queued work undone,
whereas the sequential composition `complete_tasks` then `schedule_next`
the claim describes drains the queue and performs the work; the two
disagree. -/
theorem c2_kernel_task_skips_queue :
    (kernel_task queuedState).kernel_queue =
      [KernelTask.LowerThreadPrivileges] ∧
    (kernel_task queuedState).npriv_lowered = false ∧
    (schedule_next (complete_tasks queuedState)).kernel_queue = [] ∧
    (schedule_next (complete_tasks queuedState)).npriv_lowered = true ∧
    kernel_task queuedState ≠
      schedule_next (complete_tasks queuedState) := by
  refine ⟨rfl, rfl, rfl, rfl, ?_⟩
  intro hcontra
  exact Bool.noConfusion
    (show (false : Bool) = true from
      congrArg KState.npriv_lowered hcontra)

/-- Claim C4: when the console accepts all remaining bytes of a
`WriteTx`, `execute_task` writes `Ok` into the caller's saved `r0` slot
and `total` into the saved `r1` slot and hands back an `Unblock` action;
when only `appended < left` bytes are accepted it hands back a `WriteTx`
continuation with `left` decreased by `appended` and `data` advanced by
`appended`, carrying the same `args`, `total` and `task`; and any action
handed back during a `complete_tasks` pass lands in the queue for the
next pass, never being executed in the same pass. -/
theorem c4_writetx (s : KState) (args total left data : Nat)
    (task : Option Nat) :
    (∀ n, (s.tx_buffer.append
        ((List.range left).map (fun i => s.mem8 (data + i)))).2 =
          Except.ok n →
      execute_task s (KernelTask.WriteTx args total left data task) =
        ({ s.set_blocked task true with
            tx_buffer := (s.tx_buffer.append
              ((List.range left).map (fun i => s.mem8 (data + i)))).1,
            argmem := wupdate (wupdate s.argmem args ReturnCode.Ok.toU32)
              (args + 1) total },
         some (KernelTask.Unblock task))) ∧
    (∀ appended, (s.tx_buffer.append
        ((List.range left).map (fun i => s.mem8 (data + i)))).2 =
          Except.error appended →
      execute_task s (KernelTask.WriteTx args total left data task) =
        ({ s.set_blocked task true with
            tx_buffer := (s.tx_buffer.append
              ((List.range left).map (fun i => s.mem8 (data + i)))).1 },
         some (KernelTask.WriteTx args total (left - appended)
           (data + appended) task))) ∧
    (∀ w s' c, s.kernel_queue = [w] →
      execute_task { s with kernel_queue := [] } w = (s', some c) →
      complete_tasks s = { s' with kernel_queue := [c] }) := by
  refine ⟨?_, ?_, ?_⟩
  · intro n hok
    rcases happ : s.tx_buffer.append
        ((List.range left).map (fun i => s.mem8 (data + i))) with ⟨tx, r⟩
    rw [happ] at hok
    simp only at hok
    subst hok
    simp [execute_task, happ]
  · intro appended herr
    rcases happ : s.tx_buffer.append
        ((List.range left).map (fun i => s.mem8 (data + i))) with ⟨tx, r⟩
    rw [happ] at herr
    simp only at herr
    subst herr
    simp [execute_task, happ]
  · intro w s' c hq hexec
    simp only [complete_tasks, hq, run_queue, hexec]
    simp

/-- Claim C4 witness: a two-byte `WriteTx` into an empty console FIFO
completes (`Ok` and `total` written back, `Unblock` handed back); the
same `WriteTx` against a full FIFO yields a continuation with the same
fields; and the action handed back by a queued `WriteTx` sits in the
queue after the `complete_tasks` pass instead of being executed in it. -/
theorem c4_writetx_witness :
    execute_task baseState (KernelTask.WriteTx 0 2 2 0 (some 1)) =
      ({ baseState.set_blocked (some 1) true with
          tx_buffer := (baseState.tx_buffer.append
            ((List.range 2).map (fun i => baseState.mem8 (0 + i)))).1,
          argmem := wupdate (wupdate baseState.argmem 0 ReturnCode.Ok.toU32)
            (0 + 1) 2 },
       some (KernelTask.Unblock (some 1))) ∧
    execute_task { baseState with tx_buffer := fullFifo }
        (KernelTask.WriteTx 0 2 2 0 (some 1)) =
      ({ ({ baseState with tx_buffer := fullFifo }).set_blocked (some 1)
            true with
          tx_buffer := (({ baseState with tx_buffer := fullFifo
            }).tx_buffer.append
            ((List.range 2).map (fun i => baseState.mem8 (0 + i)))).1 },
       some (KernelTask.WriteTx 0 2 (2 - 0) (0 + 0) (some 1))) ∧
    complete_tasks
        { baseState with
            kernel_queue := [KernelTask.WriteTx 0 2 2 0 (some 1)] } =
      { (execute_task { baseState with kernel_queue := [] }
          (KernelTask.WriteTx 0 2 2 0 (some 1))).1 with
        kernel_queue := [KernelTask.Unblock (some 1)] } :=
  ⟨(c4_writetx baseState 0 2 2 0 (some 1)).1 2 rfl,
   (c4_writetx { baseState with tx_buffer := fullFifo } 0 2 2 0
      (some 1)).2.1 0 rfl,
   (c4_writetx
      { baseState with
          kernel_queue := [KernelTask.WriteTx 0 2 2 0 (some 1)] }
      0 2 2 0 (some 1)).2.2
     (KernelTask.WriteTx 0 2 2 0 (some 1)) _ (KernelTask.Unblock (some 1))
     rfl rfl⟩

/-- Claim C3, counterexample: with the 1280-byte transmit FIFO completely
full, the buffered writer returns `Ok` for the one-byte string `[72]`
although the byte was dropped: the transmitted bytes followed by the
still-buffered bytes do not gain the byte 72, so not every byte of the
string was enqueued before returning. -/
theorem c3_counterexample :
    (buffered_write_str fullBios [72]).2 = Except.ok () ∧
    ¬ ((buffered_write_str fullBios [72]).1.uart_tx ++
        (buffered_write_str fullBios [72]).1.tx_buffer.toList =
       fullBios.uart_tx ++ fullBios.tx_buffer.toList ++ [72]) := by
  refine ⟨rfl, ?_⟩
  intro hcontra
  have h1 : (buffered_write_str fullBios [72]).1.uart_tx = [0] := rfl
  have h2 : (buffered_write_str fullBios [72]).1.tx_buffer.count = 1279 :=
    rfl
  have hlen := congrArg List.length hcontra
  rw [h1] at hlen
  simp only [List.length_append, FIFO.toList_length, h2,
    List.length_cons, List.length_nil] at hlen
  have h3 : fullBios.uart_tx.length = 0 := rfl
  have h4 : fullBios.tx_buffer.count = 1280 := rfl
  rw [h3, h4] at hlen
  omega

/-- Claim C3 (amended): `BufferedOutput::write_str` enqueues the bytes of
the string in order only until the FIFO rejects one, silently dropping
the remainder — it enqueues exactly the longest front part of the string
that fits in the free space — then moves at most one byte to the UART
data register and returns `Ok` unconditionally; it does not spin on a
full FIFO. -/
theorem c3_buffered_write_str {SIZE : Nat} (s : BiosState SIZE)
    (string : List Nat) (hwf : s.tx_buffer.WF) :
    (buffered_write_str s string).2 = Except.ok () ∧
    (buffered_write_str s string).1.uart_tx ++
        (buffered_write_str s string).1.tx_buffer.toList =
      s.uart_tx ++ s.tx_buffer.toList ++
        string.take (SIZE - s.tx_buffer.count) := by
  obtain ⟨hwf1, htl1⟩ := write_str_go_spec string s.tx_buffer hwf
  have hmid := send_next_spec
    (⟨write_str_go s.tx_buffer string, s.uart_tx, false⟩ : BiosState SIZE)
    hwf1
  refine ⟨rfl, ?_⟩
  show (send_next
      (⟨write_str_go s.tx_buffer string, s.uart_tx, false⟩ :
        BiosState SIZE)).uart_tx ++
    (send_next
      (⟨write_str_go s.tx_buffer string, s.uart_tx, false⟩ :
        BiosState SIZE)).tx_buffer.toList = _
  rw [hmid.2.1]
  show s.uart_tx ++ (write_str_go s.tx_buffer string).toList = _
  rw [htl1, List.append_assoc]

/-- Claim C3 witness: writing three bytes into an empty two-slot FIFO
returns `Ok` and conserves exactly the two fitting bytes. -/
theorem c3_buffered_write_str_witness :
    (buffered_write_str
        (⟨FIFO.new_with Nat 2 0, [], true⟩ : BiosState 2) [7, 8, 9]).2 =
      Except.ok () ∧
    (buffered_write_str
        (⟨FIFO.new_with Nat 2 0, [], true⟩ : BiosState 2) [7, 8, 9]).1.uart_tx ++
        (buffered_write_str
          (⟨FIFO.new_with Nat 2 0, [], true⟩ : BiosState 2)
          [7, 8, 9]).1.tx_buffer.toList =
      [] ++ (FIFO.new_with Nat 2 0).toList ++
        [7, 8, 9].take (2 - (FIFO.new_with Nat 2 0).count) :=
  c3_buffered_write_str
    (⟨FIFO.new_with Nat 2 0, [], true⟩ : BiosState 2) [7, 8, 9] (by decide)

/-- Claim C6: for every sequence of `push_back`/`pop_front` operations on
an initially empty FIFO, the values returned by successful pops followed
by the values still buffered equal the values accepted by successful
pushes, in order — no value is lost, duplicated or reordered, and the
popped sequence is a front part of the pushed sequence. -/
theorem c6_fifo_order {T : Type} (SIZE : Nat) (d : T) (h0 : 0 < SIZE)
    (ops : List (FifoOp T)) :
    (runOps (FIFO.new_with T SIZE d) ops).2.2 ++
      (runOps (FIFO.new_with T SIZE d) ops).1.toList =
    (runOps (FIFO.new_with T SIZE d) ops).2.1 := by
  have hwf : (FIFO.new_with T SIZE d).WF :=
    ⟨h0, by simp [FIFO.new_with], by simp [FIFO.new_with]⟩
  have hrun := (runOps_spec ops (FIFO.new_with T SIZE d) hwf).2
  have htl : (FIFO.new_with T SIZE d).toList = [] := by
    simp [FIFO.toList, FIFO.new_with]
  rw [htl] at hrun
  simpa using hrun

/-- Claim C6 witness: pushing 1, 2, 3 into a two-slot FIFO (the third
push fails on the full buffer) and popping twice returns exactly `[1, 2]`
in order. -/
theorem c6_fifo_order_witness :
    (runOps (FIFO.new_with Nat 2 0)
        [FifoOp.push 1, FifoOp.push 2, FifoOp.push 3, FifoOp.pop,
         FifoOp.pop]).2.2 ++
      (runOps (FIFO.new_with Nat 2 0)
        [FifoOp.push 1, FifoOp.push 2, FifoOp.push 3, FifoOp.pop,
         FifoOp.pop]).1.toList =
    (runOps (FIFO.new_with Nat 2 0)
        [FifoOp.push 1, FifoOp.push 2, FifoOp.push 3, FifoOp.pop,
         FifoOp.pop]).2.1 ∧
    (runOps (FIFO.new_with Nat 2 0)
        [FifoOp.push 1, FifoOp.push 2, FifoOp.push 3, FifoOp.pop,
         FifoOp.pop]).2.2 = [1, 2] ∧
    (runOps (FIFO.new_with Nat 2 0)
        [FifoOp.push 1, FifoOp.push 2, FifoOp.push 3, FifoOp.pop,
         FifoOp.pop]).2.1 = [1, 2] :=
  ⟨c6_fifo_order 2 0 (by decide) _, by decide, by decide⟩

end CtxSw
